import Mathlib

/-!
Verification of the email normalization engine
(EmailUtils in unipile-email-service.js and email-utils.js).

Strings are modelled as lists of characters.  Regular-expression based
string transformations from the source are modelled by explicit scanners
that follow the JavaScript regex semantics (leftmost match, lazy or
greedy quantifiers as written in each pattern, global replacement that
resumes after the replaced text).  Functions whose JavaScript recursion
consumes a non-constant amount of input per step are written with an
explicit fuel argument (fuel = input length always suffices; exhausted
fuel returns the remaining input unchanged) so that every definition is
structurally recursive and kernel-computable.
-/

set_option maxRecDepth 4000

/-- Characters matched by the JavaScript regex class backslash-s
(whitespace, including line terminators and the common Unicode spaces). -/
def isWsChar (c : Char) : Bool :=
  c = ' ' || c = '\t' || c = '\n' || c = '\r' || c = '\u000b' || c = '\u000c' ||
  c = '\u00a0' || c = '\u1680' || ('\u2000' ≤ c && c ≤ '\u200a') ||
  c = '\u2028' || c = '\u2029' || c = '\u202f' || c = '\u205f' || c = '\u3000' ||
  c = '\ufeff'
/-- Line terminators, which the JavaScript dot does not match outside dotall mode. -/
def isLineTermChar (c : Char) : Bool :=
  c = '\n' || c = '\r' || c = '\u2028' || c = '\u2029'

/-- ASCII lowering, modelling String.prototype.toLowerCase on the inputs used here. -/
def lowerChar (c : Char) : Char :=
  if 'A' ≤ c && c ≤ 'Z' then Char.ofNat (c.toNat + 32) else c

def lowerL (l : List Char) : List Char := l.map lowerChar

def isDigitC (c : Char) : Bool := '0' ≤ c && c ≤ '9'

/-- Word characters for the JavaScript word-boundary assertion. -/
def isWordC (c : Char) : Bool :=
  isDigitC c || ('a' ≤ c && c ≤ 'z') || ('A' ≤ c && c ≤ 'Z') || c = '_'

/-- Case-sensitive literal prefix test. -/
def startsWithL : List Char → List Char → Bool
  | [], _ => true
  | _ :: _, [] => false
  | p :: ps, c :: cs => (p = c) && startsWithL ps cs

/-- Case-insensitive literal prefix test (patterns are given lowercased). -/
def ciStartsWithL : List Char → List Char → Bool
  | [], _ => true
  | _ :: _, [] => false
  | p :: ps, c :: cs => (lowerChar c = p) && ciStartsWithL ps cs

/-- Substring containment (String.prototype.includes). -/
def containsSub (pat : List Char) : List Char → Bool
  | [] => startsWithL pat []
  | c :: rest => startsWithL pat (c :: rest) || containsSub pat rest

/-- Remainder of the list strictly after the first greater-than sign, if any. -/
def splitAfterGt : List Char → Option (List Char)
  | [] => none
  | c :: rest => if c = '>' then some rest else splitAfterGt rest

/-- Remainder strictly after the first case-insensitive occurrence of the pattern. -/
def dropThroughCI (pat : List Char) : List Char → Option (List Char)
  | [] => if pat.isEmpty then some [] else none
  | c :: rest =>
    if ciStartsWithL pat (c :: rest) then some ((c :: rest).drop pat.length)
    else dropThroughCI pat rest

/-- Split at the first occurrence of a character: (before, after). -/
def splitAtFirst (t : Char) : List Char → Option (List Char × List Char)
  | [] => none
  | c :: rest =>
    if c = t then some ([], rest)
    else (splitAtFirst t rest).map (fun p => (c :: p.1, p.2))

def jsTrimL (l : List Char) : List Char := l.dropWhile isWsChar

/-- Remove trailing whitespace (String.prototype.trimEnd). -/
def jsTrimR : List Char → List Char
  | [] => []
  | c :: rest =>
    match jsTrimR rest with
    | [] => if isWsChar c then [] else [c]
    | d :: r => c :: d :: r

/-- String.prototype.trim. -/
def jsTrim (l : List Char) : List Char := jsTrimR (jsTrimL l)

/-- Insertion-order deduplication, as the JavaScript Set spread performs. -/
def dedupFirstAux (seen : List (List Char)) : List (List Char) → List (List Char)
  | [] => []
  | x :: xs =>
    if x ∈ seen then dedupFirstAux seen xs
    else x :: dedupFirstAux (x :: seen) xs

def dedupFirst (l : List (List Char)) : List (List Char) := dedupFirstAux [] l

/-- String.prototype.split with the single-space separator. -/
def splitOnSp : List Char → List (List Char)
  | [] => [[]]
  | c :: rest =>
    if c = ' ' then [] :: splitOnSp rest
    else
      match splitOnSp rest with
      | [] => [[c]]
      | g :: gs => (c :: g) :: gs

/-- Number of maximal runs of non-separator characters. -/
def countTokensAux (p : Char → Bool) : Bool → List Char → Nat
  | _, [] => 0
  | inTok, c :: rest =>
    if p c then countTokensAux p false rest
    else (if inTok then 0 else 1) + countTokensAux p true rest

def countTokensBy (p : Char → Bool) (l : List Char) : Nat := countTokensAux p false l

/-- Global literal replacement (String.prototype.replace with a literal
global pattern): scan left to right, replace each occurrence, resume
after the replacement. -/
def replaceStrAux (pat rep : List Char) : Nat → List Char → List Char
  | 0, l => l
  | _ + 1, [] => []
  | f + 1, c :: rest =>
    if !pat.isEmpty && startsWithL pat (c :: rest) then
      rep ++ replaceStrAux pat rep f ((c :: rest).drop pat.length)
    else c :: replaceStrAux pat rep f rest

def replaceStr (pat rep l : List Char) : List Char := replaceStrAux pat rep l.length l

/-- Replace every maximal whitespace run by a single space
(the backslash-s-plus global replacement). -/
def collapseWsAux : Nat → List Char → List Char
  | 0, l => l
  | _ + 1, [] => []
  | f + 1, c :: rest =>
    if isWsChar c then ' ' :: collapseWsAux f (rest.dropWhile isWsChar)
    else c :: collapseWsAux f rest

def collapseWs (l : List Char) : List Char := collapseWsAux l.length l

/-- Replace every CR-LF pair or lone LF by a single space (a lone CR
does not match the optional-CR-then-LF pattern and is kept). -/
def replaceCRLF : List Char → List Char
  | [] => []
  | [c] => if c = '\n' then [' '] else [c]
  | c :: d :: rest =>
    if c = '\r' && d = '\n' then ' ' :: replaceCRLF rest
    else if c = '\n' then ' ' :: replaceCRLF (d :: rest)
    else c :: replaceCRLF (d :: rest)

/-- Replace every HTML tag (lt, one or more non-gt characters, gt) by a space. -/
def stripTagsAux : Nat → List Char → List Char
  | 0, l => l
  | _ + 1, [] => []
  | f + 1, c :: rest =>
    if c = '<' then
      match rest with
      | [] => c :: stripTagsAux f rest
      | d :: _ =>
        if d = '>' then c :: stripTagsAux f rest
        else
          match splitAfterGt rest with
          | some after => ' ' :: stripTagsAux f after
          | none => c :: stripTagsAux f rest
    else c :: stripTagsAux f rest

def stripTags (l : List Char) : List Char := stripTagsAux l.length l

/-- Remove a script-like block: lt + tag name (case-insensitive), any
non-gt characters, gt, lazily up to the first closing literal.  Models
the global dotall case-insensitive block-removal regexes. -/
def removeBlockAux (tag close : List Char) : Nat → List Char → List Char
  | 0, l => l
  | _ + 1, [] => []
  | f + 1, c :: rest =>
    if c = '<' && ciStartsWithL tag rest then
      match splitAfterGt (rest.drop tag.length) with
      | none => c :: removeBlockAux tag close f rest
      | some afterGt =>
        match dropThroughCI close afterGt with
        | none => c :: removeBlockAux tag close f rest
        | some afterClose => removeBlockAux tag close f afterClose
    else c :: removeBlockAux tag close f rest

def removeBlock (tag close l : List Char) : List Char :=
  removeBlockAux tag close l.length l

def aposC : List Char := [Char.ofNat 39]

def backqC : List Char := [Char.ofNat 96]

/-- The entity-decoding steps shared verbatim by both implementations of
htmlToText, in source order: script blocks, style blocks, tags, nbsp,
amp, lt, gt, quot, numeric 39, apos. -/
def commonDecode (l : List Char) : List Char :=
  replaceStr "&apos;".data aposC
    (replaceStr "&#39;".data aposC
      (replaceStr "&quot;".data "\"".data
        (replaceStr "&gt;".data ">".data
          (replaceStr "&lt;".data "<".data
            (replaceStr "&amp;".data "&".data
              (replaceStr "&nbsp;".data " ".data
                (stripTags
                  (removeBlock "style".data "</style>".data
                    (removeBlock "script".data "</script>".data l)))))))))

/-- The four hex-entity steps present only in unipile-email-service.js. -/
def hexDecode (l : List Char) : List Char :=
  replaceStr "&#x3D;".data "=".data
    (replaceStr "&#x60;".data backqC
      (replaceStr "&#x2F;".data "/".data
        (replaceStr "&#x27;".data aposC l)))

/-- htmlToText of email-utils.js. -/
def htmlToTextE (l : List Char) : List Char :=
  if l.isEmpty then [] else jsTrim (collapseWs (commonDecode l))

/-- htmlToText of unipile-email-service.js. -/
def htmlToTextU (l : List Char) : List Char :=
  if l.isEmpty then [] else jsTrim (replaceCRLF (collapseWs (hexDecode (commonDecode l))))

def htmlToTextEStr (s : String) : String := String.mk (htmlToTextE s.data)

def htmlToTextUStr (s : String) : String := String.mk (htmlToTextU s.data)

/-- All URL tokens of the body, by the global http-or-https regex:
scheme literal then a maximal nonempty run of characters that are not
whitespace, angle brackets or double quotes. -/
def urlStop (c : Char) : Bool := isWsChar c || c = '<' || c = '>' || c = '"'

def tryUrlAt (l : List Char) : Option (List Char × List Char) :=
  if startsWithL "https://".data l then
    let rest := l.drop 8
    let run := rest.takeWhile (fun c => !urlStop c)
    if run.isEmpty then none else some ("https://".data ++ run, rest.dropWhile (fun c => !urlStop c))
  else if startsWithL "http://".data l then
    let rest := l.drop 7
    let run := rest.takeWhile (fun c => !urlStop c)
    if run.isEmpty then none else some ("http://".data ++ run, rest.dropWhile (fun c => !urlStop c))
  else none

def urlScanAux : Nat → List Char → List (List Char)
  | 0, _ => []
  | _ + 1, [] => []
  | f + 1, c :: rest =>
    match tryUrlAt (c :: rest) with
    | some (u, after) => u :: urlScanAux f after
    | none => urlScanAux f rest

def urlScan (l : List Char) : List (List Char) := urlScanAux l.length l

/-- All boundary-delimited runs of 4 to 8 digits (the code-extraction
regex with word boundaries).  The Bool argument records whether the
previous character was a word character. -/
def codeScanAux : Nat → Bool → List Char → List (List Char)
  | 0, _, _ => []
  | _ + 1, _, [] => []
  | f + 1, prevWord, c :: rest =>
    if !prevWord && isDigitC c then
      let run := (c :: rest).takeWhile isDigitC
      let after := (c :: rest).dropWhile isDigitC
      let okTail := match after with
        | [] => true
        | d :: _ => !isWordC d
      if 4 ≤ run.length && run.length ≤ 8 && okTail then
        run :: codeScanAux f true after
      else codeScanAux f true after
    else codeScanAux f (isWordC c) rest

def codeScan (l : List Char) : List (List Char) := codeScanAux l.length false l

/-- Whether the list contains a run of six consecutive digits. -/
def hasSixDigitRun : List Char → Bool
  | [] => false
  | c :: rest =>
    (((c :: rest).take 6).length = 6 && ((c :: rest).take 6).all isDigitC) ||
    hasSixDigitRun rest

/-- JavaScript values, as far as the engine inspects them. -/
inductive JSVal where
  | undef : JSVal
  | null : JSVal
  | bool : Bool → JSVal
  | num : Int → JSVal
  | str : String → JSVal
  | arr : List JSVal → JSVal
  | obj : List (String × JSVal) → JSVal

/-- JavaScript truthiness. -/
def jsTruthy : JSVal → Bool
  | JSVal.undef => false
  | JSVal.null => false
  | JSVal.bool b => b
  | JSVal.num n => !(n = 0)
  | JSVal.str s => !(s = "")
  | JSVal.arr _ => true
  | JSVal.obj _ => true

/-- Property lookup on a field list (fields are assumed key-unique). -/
def jget : List (String × JSVal) → String → JSVal
  | [], _ => JSVal.undef
  | (k, x) :: rest, key => if k = key then x else jget rest key

/-- Property lookup on a value: objects expose their fields, every other
value yields undefined for the property names the engine reads. -/
def jgetProp : JSVal → String → JSVal
  | JSVal.obj fields, key => jget fields key
  | _, _ => JSVal.undef

/-- The JavaScript or-else operator on values. -/
def jsOr (a b : JSVal) : JSVal := if jsTruthy a then a else b

def jsIsString : JSVal → Bool
  | JSVal.str _ => true
  | _ => false

def jsStrData : JSVal → List Char
  | JSVal.str s => s.data
  | _ => []

mutual

/-- Template-literal string coercion (Array.prototype.toString joins
elements with commas, rendering null and undefined elements empty). -/
def jsToString : JSVal → List Char
  | JSVal.undef => "undefined".data
  | JSVal.null => "null".data
  | JSVal.bool b => if b then "true".data else "false".data
  | JSVal.num n => (toString n).data
  | JSVal.str s => s.data
  | JSVal.obj _ => "[object Object]".data
  | JSVal.arr xs => jsToStringArr xs

def jsToStringArr : List JSVal → List Char
  | [] => []
  | [x] => jsToStringElem x
  | x :: y :: xs => jsToStringElem x ++ ',' :: jsToStringArr (y :: xs)

def jsToStringElem : JSVal → List Char
  | JSVal.undef => []
  | JSVal.null => []
  | JSVal.bool b => if b then "true".data else "false".data
  | JSVal.num n => (toString n).data
  | JSVal.str s => s.data
  | JSVal.obj _ => "[object Object]".data
  | JSVal.arr xs => jsToStringArr xs

end

/-- A resolved identity; field values stay JavaScript values because the
object branch of the extractor copies whatever the record holds. -/
structure JIdentity where
  email : JSVal
  name : JSVal

/-! The bracketed-sender pattern: lazy any-run, whitespace run, lt, lazy
nonempty any-run, gt, searched at each start position left to right. -/

/-- Scan to the first gt sign; the characters before it must not be line
terminators (they are matched by the dot).  Returns (content, rest). -/
def scanToGt : List Char → Option (List Char × List Char)
  | [] => none
  | c :: rest =>
    if c = '>' then some ([], rest)
    else if isLineTermChar c then none
    else (scanToGt rest).map (fun p => (c :: p.1, p.2))

/-- Try to complete the pattern right after group 1: a whitespace run,
lt, then the lazy nonempty group 2 up to the first gt. -/
def bracketTail (l : List Char) : Option (List Char) :=
  match l.dropWhile isWsChar with
  | '<' :: c0 :: m =>
    if isLineTermChar c0 then none
    else (scanToGt m).map (fun p => c0 :: p.1)
  | _ => none

/-- Lazy group 1 at a fixed start: grow group 1 one dot-matchable
character at a time until the tail matches. -/
def bracketG1 (acc : List Char) : List Char → Option (List Char × List Char)
  | [] =>
    match bracketTail [] with
    | some g2 => some (acc.reverse, g2)
    | none => none
  | c :: rest =>
    match bracketTail (c :: rest) with
    | some g2 => some (acc.reverse, g2)
    | none =>
      if isLineTermChar c then none
      else bracketG1 (c :: acc) rest

/-- Leftmost match of the bracketed-sender pattern: (group 1, group 2). -/
def bracketSearch : List Char → Option (List Char × List Char)
  | [] => none
  | c :: rest =>
    match bracketG1 [] (c :: rest) with
    | some p => some p
    | none => bracketSearch rest

/-- The anchored single-address test used by the unipile extractor:
nonempty run without whitespace or at-sign, at-sign, nonempty run, dot,
nonempty run (the dot may not be first or last after the at-sign). -/
def emailRegexTest (l : List Char) : Bool :=
  match splitAtFirst '@' l with
  | none => false
  | some (a, r) =>
    !a.isEmpty && a.all (fun c => !isWsChar c && c ≠ '@') &&
    !r.isEmpty && r.all (fun c => !isWsChar c && c ≠ '@') &&
    ((r.dropLast).drop 1).contains '.'

/-- Sender extraction of unipile-email-service.js: falsy check, object
branch (attendee field fallback chains), string branch (bracket pattern,
bare address, free-text fallback), final fallback. -/
def extractSenderU (v : JSVal) : JIdentity :=
  if !(jsTruthy v) then ⟨JSVal.str "Unknown", JSVal.str ""⟩
  else
    match v with
    | JSVal.obj _ | JSVal.arr _ =>
      ⟨jsOr (jgetProp v "email")
         (jsOr (jgetProp v "identifier")
           (jsOr (jgetProp v "address")
             (jsOr (jgetProp v "mail") (JSVal.str "Unknown")))),
       jsOr (jgetProp v "name")
         (jsOr (jgetProp v "display_name")
           (jsOr (jgetProp v "displayName")
             (jsOr (jgetProp v "personal")
               (jsOr (jgetProp v "full_name")
                 (jsOr (jgetProp v "fullName") (JSVal.str ""))))))⟩
    | JSVal.str s =>
      match bracketSearch s.data with
      | some (g1, g2) =>
        ⟨JSVal.str (String.mk (jsTrim g2)),
         JSVal.str (String.mk ((jsTrim g1).filter (fun c => c ≠ '"')))⟩
      | none =>
        if emailRegexTest (jsTrim s.data) then
          ⟨JSVal.str (String.mk (jsTrim s.data)), JSVal.str ""⟩
        else ⟨JSVal.str "Unknown", JSVal.str (String.mk (jsTrim s.data))⟩
    | _ => ⟨JSVal.str "Unknown", JSVal.str ""⟩

/-- Sender extraction of email-utils.js: falsy check, string branch
(bracket pattern, otherwise the trimmed input is used as the address),
object branch with its shorter fallback chains, final fallback. -/
def extractSenderE (v : JSVal) : JIdentity :=
  if !(jsTruthy v) then ⟨JSVal.str "Unknown", JSVal.str ""⟩
  else
    match v with
    | JSVal.str s =>
      match bracketSearch s.data with
      | some (g1, g2) =>
        ⟨JSVal.str (String.mk (jsTrim g2)),
         JSVal.str (String.mk ((jsTrim g1).filter (fun c => c ≠ '"')))⟩
      | none => ⟨JSVal.str (String.mk (jsTrim s.data)), JSVal.str ""⟩
    | JSVal.obj _ | JSVal.arr _ =>
      ⟨jsOr (jgetProp v "email")
         (jsOr (jgetProp v "identifier")
           (jsOr (jgetProp v "address") (JSVal.str "Unknown"))),
       jsOr (jgetProp v "name")
         (jsOr (jgetProp v "display_name")
           (jsOr (jgetProp v "personal") (JSVal.str "")))⟩
    | _ => ⟨JSVal.str "Unknown", JSVal.str ""⟩

/-- extractRecipients: array check, element-wise sender extraction. -/
def extractRecipientsU : JSVal → List JIdentity
  | JSVal.arr xs => xs.map extractSenderU
  | _ => []

/-- htmlToText as called on a JavaScript value (non-strings come back empty). -/
def htmlToTextJS : JSVal → List Char
  | JSVal.str s => htmlToTextU s.data
  | _ => []

/-- Content selection of generatePreview in unipile-email-service.js:
prefer a plain body that is a string longer than 10 characters, else
decode the html body, else nothing. -/
def selContent (body plainBody : JSVal) : List Char :=
  if jsTruthy plainBody && jsIsString plainBody && 10 < (jsStrData plainBody).length then
    jsStrData plainBody
  else if jsTruthy body && jsIsString body then htmlToTextJS body
  else []

/-- The cleaning pass of generatePreview: newlines, whitespace runs, trim. -/
def cleanPreview (l : List Char) : List Char := jsTrim (collapseWs (replaceCRLF l))

/-- generatePreview of unipile-email-service.js. -/
def generatePreviewJS (body plainBody : JSVal) (maxLength : Nat) : List Char :=
  let content := selContent body plainBody
  if content.isEmpty then "No content available".data
  else
    let cleaned := cleanPreview content
    if maxLength < cleaned.length then cleaned.take maxLength ++ "...".data
    else if cleaned.isEmpty then "Empty message".data
    else cleaned

/-- The normalized record produced by processEmail.  Derived fields keep
their computed types; pass-through fields stay JavaScript values. -/
structure Processed where
  id : JSVal
  subject : JSVal
  date : JSVal
  hasAttachments : JSVal
  isRead : Bool
  messageId : JSVal
  threadId : JSVal
  providerId : JSVal
  sender : JIdentity
  toRecipients : List JIdentity
  ccRecipients : List JIdentity
  bccRecipients : List JIdentity
  replyToRecipients : List JIdentity
  preview : List Char
  plainTextBody : JSVal
  htmlBody : JSVal
  contentLength : JSVal
  folders : JSVal
  folderIds : JSVal
  wordCount : Nat
  estimatedReadTime : Nat
  emailType : JSVal
  origin : JSVal
  role : JSVal
  attachments : JSVal

/-- processEmail of unipile-email-service.js.  The only failing step is
the word count: plainTextBody.split is a TypeError whenever body_plain
is truthy but not a string (the debug-only underscore-debug block is the
one omitted output field). -/
def processEmailJS (email : List (String × JSVal)) : Except (List Char) Processed :=
  let sender := extractSenderU (jget email "from_attendee")
  let toR := extractRecipientsU (jsOr (jget email "to_attendees") (JSVal.arr []))
  let ccR := extractRecipientsU (jsOr (jget email "cc_attendees") (JSVal.arr []))
  let bccR := extractRecipientsU (jsOr (jget email "bcc_attendees") (JSVal.arr []))
  let replyToR := extractRecipientsU (jsOr (jget email "reply_to_attendees") (JSVal.arr []))
  let htmlContent := jsOr (jget email "body") (JSVal.str "")
  let plainTextBody := jsOr (jget email "body_plain") (JSVal.str (String.mk (htmlToTextJS htmlContent)))
  let preview := generatePreviewJS htmlContent plainTextBody 200
  match plainTextBody with
  | JSVal.str pt =>
    let wc := ((splitOnSp pt.data).filter (fun w => 0 < w.length)).length
    Except.ok
      { id := jget email "id"
        subject := jsOr (jget email "subject") (JSVal.str "No Subject")
        date := jget email "date"
        hasAttachments := jsOr (jget email "has_attachments") (JSVal.bool false)
        isRead := jsTruthy (jget email "read_date")
        messageId := jget email "message_id"
        threadId := jget email "thread_id"
        providerId := jget email "provider_id"
        sender := sender
        toRecipients := toR
        ccRecipients := ccR
        bccRecipients := bccR
        replyToRecipients := replyToR
        preview := preview
        plainTextBody := JSVal.str pt
        htmlBody := htmlContent
        contentLength := JSVal.num (pt.length : Int)
        folders := jsOr (jget email "folders") (JSVal.arr [])
        folderIds := jsOr (jget email "folderIds") (JSVal.arr [])
        wordCount := wc
        estimatedReadTime := max 1 ((wc + 199) / 200)
        emailType := jget email "type"
        origin := jget email "origin"
        role := jget email "role"
        attachments := jsOr (jget email "attachments") (JSVal.arr []) }
  | _ => Except.error "plainTextBody.split is not a function".data

def isOkE {α : Type} : Except (List Char) α → Bool
  | Except.ok _ => true
  | Except.error _ => false

/-- Key facts extracted from subject and body (the dates list is
declared by the source but never filled). -/
structure KeyFacts where
  codes : List (List Char)
  links : List (List Char)
  dates : List (List Char)
  actions : List (List Char)

def actionWords : List (List Char) :=
  ["verify".data, "confirm".data, "activate".data, "login".data, "reset".data, "update".data]

/-- extractKeyInfo of email-utils.js.  The template literal coerces any
subject and body into the searched text, but body.match is a TypeError
whenever body is not a string. -/
def extractKeyInfoJS (subject body : JSVal) : Except (List Char) KeyFacts :=
  let fullText := lowerL (jsToString subject ++ ' ' :: jsToString body)
  let codes := dedupFirst (codeScan fullText)
  match body with
  | JSVal.str b =>
    let urls := urlScan b.data
    Except.ok
      { codes := codes
        links := dedupFirst (urls.take 3)
        dates := []
        actions := actionWords.filter (fun a => containsSub a fullText) }
  | _ => Except.error "body.match is not a function".data

/-- categorizeEmail of email-utils.js: fixed rule order with
first-match-wins, lowercased inputs, six-digit test on the raw subject. -/
def categorizeEmail (subject sender body : String) : String :=
  let subjectLower := lowerL subject.data
  let senderLower := lowerL sender.data
  let _bodyLower := lowerL body.data
  if containsSub "security".data subjectLower ||
     containsSub "verification".data subjectLower ||
     containsSub "verify".data subjectLower ||
     containsSub "code".data subjectLower ||
     hasSixDigitRun subject.data then "security"
  else if containsSub "instagram".data senderLower ||
          containsSub "facebook".data senderLower ||
          containsSub "linkedin".data senderLower ||
          containsSub "twitter".data senderLower then "social"
  else if containsSub "kalvium".data senderLower ||
          containsSub "employee".data subjectLower ||
          containsSub "work".data subjectLower ||
          containsSub "project".data subjectLower then "work"
  else if containsSub "update".data subjectLower ||
          containsSub "launch".data subjectLower ||
          containsSub "new".data subjectLower ||
          containsSub "deal".data subjectLower then "marketing"
  else "general"

/-- Dummy record used only to state closed witness instances. -/
def dummyProcessed : Processed :=
  { id := JSVal.undef, subject := JSVal.undef, date := JSVal.undef
    hasAttachments := JSVal.undef, isRead := false, messageId := JSVal.undef
    threadId := JSVal.undef, providerId := JSVal.undef
    sender := ⟨JSVal.undef, JSVal.undef⟩, toRecipients := [], ccRecipients := []
    bccRecipients := [], replyToRecipients := []
    preview := [], plainTextBody := JSVal.undef, htmlBody := JSVal.undef
    contentLength := JSVal.undef, folders := JSVal.undef, folderIds := JSVal.undef
    wordCount := 0, estimatedReadTime := 0, emailType := JSVal.undef
    origin := JSVal.undef, role := JSVal.undef, attachments := JSVal.undef }

def procOr (e : Except (List Char) Processed) (d : Processed) : Processed :=
  match e with
  | Except.ok r => r
  | Except.error _ => d

/-! Basic facts about the fueled scanners. -/

lemma dropWhile_length_le (p : Char → Bool) (l : List Char) :
    (l.dropWhile p).length ≤ l.length :=
  (List.dropWhile_sublist p).length_le

lemma replaceStrAux_congr (pat rep : List Char) :
    ∀ f1 f2 l, l.length ≤ f1 → l.length ≤ f2 →
      replaceStrAux pat rep f1 l = replaceStrAux pat rep f2 l
  | 0, f2, l, h1, _ => by
    have hl : l = [] := List.eq_nil_of_length_eq_zero (Nat.le_zero.mp h1)
    subst hl; cases f2 <;> rfl
  | f1 + 1, 0, l, _, h2 => by
    have hl : l = [] := List.eq_nil_of_length_eq_zero (Nat.le_zero.mp h2)
    subst hl; rfl
  | _ + 1, _ + 1, [], _, _ => rfl
  | f1 + 1, f2 + 1, c :: rest, h1, h2 => by
    simp only [replaceStrAux]
    by_cases h : (!pat.isEmpty && startsWithL pat (c :: rest)) = true
    · rw [if_pos h, if_pos h]
      have hp : 1 ≤ pat.length := by
        cases pat with
        | nil => simp [List.isEmpty] at h
        | cons p ps => simp
      have hd := List.length_drop pat.length (c :: rest)
      have hlen : (c :: rest).length = rest.length + 1 := List.length_cons c rest
      congr 1
      exact replaceStrAux_congr pat rep f1 f2 _ (by omega) (by omega)
    · rw [if_neg h, if_neg h]
      have hl1 : (c :: rest).length = rest.length + 1 := List.length_cons c rest
      congr 1
      exact replaceStrAux_congr pat rep f1 f2 rest (by omega) (by omega)
termination_by f1 => f1

lemma replaceStr_cons (pat rep : List Char) (c : Char) (rest : List Char) :
    replaceStr pat rep (c :: rest) =
      if !pat.isEmpty && startsWithL pat (c :: rest) then
        rep ++ replaceStr pat rep ((c :: rest).drop pat.length)
      else c :: replaceStr pat rep rest := by
  unfold replaceStr
  simp only [List.length_cons, replaceStrAux]
  by_cases h : (!pat.isEmpty && startsWithL pat (c :: rest)) = true
  · rw [if_pos h, if_pos h]
    have hp : 1 ≤ pat.length := by
      cases pat with
      | nil => simp [List.isEmpty] at h
      | cons p ps => simp
    have hd := List.length_drop pat.length (c :: rest)
    have hlen : (c :: rest).length = rest.length + 1 := List.length_cons c rest
    congr 1
    exact replaceStrAux_congr pat rep rest.length _ _ (by omega) (Nat.le_refl _)
  · rw [if_neg h, if_neg h]

lemma replaceStrAux_notContains_id (pat rep : List Char) :
    ∀ f l, containsSub pat l = false → replaceStrAux pat rep f l = l
  | 0, _, _ => rfl
  | _ + 1, [], _ => rfl
  | f + 1, c :: rest, h => by
    have hsw : startsWithL pat (c :: rest) = false := by
      simp [containsSub] at h; exact h.1
    have hrest : containsSub pat rest = false := by
      simp [containsSub] at h; exact h.2
    have hcond : (!pat.isEmpty && startsWithL pat (c :: rest)) = false := by
      rw [hsw]; exact Bool.and_false _
    simp only [replaceStrAux]
    rw [if_neg (by rw [hcond]; exact Bool.false_ne_true)]
    rw [replaceStrAux_notContains_id pat rep f rest hrest]

lemma replaceStr_notContains_id (pat rep l : List Char)
    (h : containsSub pat l = false) : replaceStr pat rep l = l :=
  replaceStrAux_notContains_id pat rep l.length l h

lemma containsSub_false_of_head_notMem (p0 : Char) (pr l : List Char)
    (h : p0 ∉ l) : containsSub (p0 :: pr) l = false := by
  induction l with
  | nil => rfl
  | cons c rest ih =>
    have hc : p0 ≠ c := fun he => h (he ▸ List.mem_cons_self c rest)
    have hrest : p0 ∉ rest := fun hm => h (List.mem_cons_of_mem c hm)
    simp [containsSub, startsWithL, ih hrest, hc]

lemma replaceStr_head_notMem_id (p0 : Char) (pr rep l : List Char)
    (h : p0 ∉ l) : replaceStr (p0 :: pr) rep l = l :=
  replaceStr_notContains_id _ _ _ (containsSub_false_of_head_notMem p0 pr l h)

lemma replaceStr_append_headFree (p0 : Char) (pr rep : List Char) :
    ∀ a rest, (∀ c ∈ a, c ≠ p0) →
      replaceStr (p0 :: pr) rep (a ++ rest) = a ++ replaceStr (p0 :: pr) rep rest
  | [], rest, _ => by simp
  | c :: a, rest, h => by
    have hc : c ≠ p0 := h c (List.mem_cons_self c a)
    have hsw : startsWithL (p0 :: pr) (c :: (a ++ rest)) = false := by
      simp [startsWithL]
      intro he; exact absurd he.symm hc
    rw [List.cons_append, replaceStr_cons]
    rw [if_neg (by rw [hsw, Bool.and_false]; exact Bool.false_ne_true)]
    rw [replaceStr_append_headFree p0 pr rep a rest (fun d hd => h d (List.mem_cons_of_mem c hd))]
    simp

lemma collapseWsAux_congr :
    ∀ f1 f2 l, l.length ≤ f1 → l.length ≤ f2 →
      collapseWsAux f1 l = collapseWsAux f2 l
  | 0, f2, l, h1, _ => by
    have hl : l = [] := List.eq_nil_of_length_eq_zero (Nat.le_zero.mp h1)
    subst hl; cases f2 <;> rfl
  | _ + 1, 0, l, _, h2 => by
    have hl : l = [] := List.eq_nil_of_length_eq_zero (Nat.le_zero.mp h2)
    subst hl; rfl
  | _ + 1, _ + 1, [], _, _ => rfl
  | f1 + 1, f2 + 1, c :: rest, h1, h2 => by
    simp only [collapseWsAux]
    have hl1 : (c :: rest).length = rest.length + 1 := List.length_cons c rest
    by_cases h : isWsChar c = true
    · rw [if_pos h, if_pos h]
      have hd := dropWhile_length_le isWsChar rest
      congr 1
      exact collapseWsAux_congr f1 f2 _ (by omega) (by omega)
    · rw [if_neg h, if_neg h]
      congr 1
      exact collapseWsAux_congr f1 f2 rest (by omega) (by omega)
termination_by f1 => f1

lemma collapseWs_cons (c : Char) (rest : List Char) :
    collapseWs (c :: rest) =
      if isWsChar c then ' ' :: collapseWs (rest.dropWhile isWsChar)
      else c :: collapseWs rest := by
  unfold collapseWs
  simp only [List.length_cons, collapseWsAux]
  by_cases h : isWsChar c = true
  · rw [if_pos h, if_pos h]
    have hd := dropWhile_length_le isWsChar rest
    congr 1
    exact collapseWsAux_congr rest.length _ _ (by omega) (Nat.le_refl _)
  · rw [if_neg h, if_neg h]

lemma collapseWsAux_noWs_id :
    ∀ f l, (∀ c ∈ l, isWsChar c = false) → collapseWsAux f l = l
  | 0, _, _ => rfl
  | _ + 1, [], _ => rfl
  | f + 1, c :: rest, h => by
    have hc : isWsChar c = false := h c (List.mem_cons_self c rest)
    simp only [collapseWsAux]
    rw [if_neg (by rw [hc]; exact Bool.false_ne_true)]
    rw [collapseWsAux_noWs_id f rest (fun d hd => h d (List.mem_cons_of_mem c hd))]

lemma collapseWs_noWs_id (l : List Char) (h : ∀ c ∈ l, isWsChar c = false) :
    collapseWs l = l :=
  collapseWsAux_noWs_id l.length l h

/-- A list is collapsed when every whitespace character in it is a plain
space and no two adjacent characters are both whitespace. -/
def collapsedOk : List Char → Bool
  | [] => true
  | [c] => !isWsChar c || c = ' '
  | c :: d :: rest =>
    (!isWsChar c || (c = ' ' && !isWsChar d)) && collapsedOk (d :: rest)

lemma collapsedOk_tail (c : Char) (l : List Char)
    (h : collapsedOk (c :: l) = true) : collapsedOk l = true := by
  cases l with
  | nil => rfl
  | cons d rest => simp [collapsedOk] at h; exact h.2

lemma collapsedOk_cons_of_notWs (c : Char) (l : List Char)
    (hc : isWsChar c = false) (h : collapsedOk l = true) :
    collapsedOk (c :: l) = true := by
  cases l with
  | nil => simp [collapsedOk, hc]
  | cons d rest => simp [collapsedOk, hc, h]

lemma collapsedOk_space_cons (l : List Char)
    (hl : l = [] ∨ ∃ d rest, l = d :: rest ∧ isWsChar d = false)
    (h : collapsedOk l = true) : collapsedOk (' ' :: l) = true := by
  rcases hl with h0 | ⟨d, rest, rfl, hd⟩
  · subst h0; simp [collapsedOk]
  · simp [collapsedOk, hd, h]

lemma collapseWs_head_shape :
    ∀ l : List Char, collapseWs l = [] ∨
      ∃ d rest, collapseWs l = d :: rest ∧ (isWsChar d = false ∨ d = ' ')
  | [] => Or.inl rfl
  | c :: rest => by
    rw [collapseWs_cons]
    by_cases h : isWsChar c = true
    · rw [if_pos h]; exact Or.inr ⟨' ', _, rfl, Or.inr rfl⟩
    · rw [if_neg h]
      exact Or.inr ⟨c, _, rfl, Or.inl (by revert h; cases isWsChar c <;> simp)⟩

lemma collapseWs_of_dropWhile_shape (l : List Char) :
    collapseWs (l.dropWhile isWsChar) = [] ∨
      ∃ d rest, collapseWs (l.dropWhile isWsChar) = d :: rest ∧ isWsChar d = false := by
  cases hdw : l.dropWhile isWsChar with
  | nil => exact Or.inl rfl
  | cons d rest =>
    have hd : isWsChar d = false := by
      have := List.head_dropWhile_not isWsChar (l := l)
      rw [hdw] at this
      simpa using this (by simp)
    rw [collapseWs_cons, if_neg (by rw [hd]; exact Bool.false_ne_true)]
    exact Or.inr ⟨d, _, rfl, hd⟩

lemma collapsedOk_collapseWs : ∀ l : List Char, collapsedOk (collapseWs l) = true
  | [] => rfl
  | c :: rest => by
    rw [collapseWs_cons]
    by_cases h : isWsChar c = true
    · rw [if_pos h]
      have hrec := collapsedOk_collapseWs (rest.dropWhile isWsChar)
      have hshape := collapseWs_of_dropWhile_shape rest
      apply collapsedOk_space_cons _ _ hrec
      rcases hshape with h0 | ⟨d, r, he, hd⟩
      · exact Or.inl h0
      · exact Or.inr ⟨d, r, he, hd⟩
    · rw [if_neg h]
      exact collapsedOk_cons_of_notWs c _ (by revert h; cases isWsChar c <;> simp)
        (collapsedOk_collapseWs rest)
termination_by l => l.length
decreasing_by
  · have := dropWhile_length_le isWsChar rest; simp; omega
  · simp

lemma collapsedOk_ws_space :
    ∀ l : List Char, collapsedOk l = true → ∀ c ∈ l, isWsChar c = true → c = ' '
  | [], _, c, hc, _ => absurd hc (List.not_mem_nil c)
  | d :: rest, h, c, hc, hw => by
    rcases List.mem_cons.mp hc with rfl | hmem
    · cases rest with
      | nil =>
        simp [collapsedOk] at h
        rcases h with h | h
        · rw [hw] at h; exact absurd h (by simp)
        · exact h
      | cons e r =>
        simp [collapsedOk] at h
        rcases h.1 with h1 | h1
        · rw [hw] at h1; exact absurd h1 (by simp)
        · exact h1.1
    · exact collapsedOk_ws_space rest (collapsedOk_tail d rest h) c hmem hw

lemma collapsedOk_collapseWs_id :
    ∀ l : List Char, collapsedOk l = true → collapseWs l = l
  | [], _ => rfl
  | c :: rest, h => by
    rw [collapseWs_cons]
    by_cases hw : isWsChar c = true
    · rw [if_pos hw]
      have hc : c = ' ' := collapsedOk_ws_space _ h c (List.mem_cons_self c rest) hw
      subst hc
      have hdw : rest.dropWhile isWsChar = rest := by
        cases rest with
        | nil => rfl
        | cons d r =>
          simp [collapsedOk] at h
          rcases h.1 with h1 | h1
          · exact absurd (show isWsChar ' ' = true by simp [isWsChar]) (by rw [h1]; simp)
          · rw [List.dropWhile_cons, if_neg (by rw [h1]; exact Bool.false_ne_true)]
      rw [hdw, collapsedOk_collapseWs_id rest (collapsedOk_tail _ rest h)]
    · rw [if_neg hw]
      rw [collapsedOk_collapseWs_id rest (collapsedOk_tail c rest h)]

lemma collapsedOk_dropWhile (l : List Char) (h : collapsedOk l = true) :
    collapsedOk (l.dropWhile isWsChar) = true := by
  induction l with
  | nil => exact h
  | cons c rest ih =>
    rw [List.dropWhile_cons]
    by_cases hw : isWsChar c = true
    · rw [if_pos hw]; exact ih (collapsedOk_tail c rest h)
    · rw [if_neg hw]; exact h

lemma jsTrimR_shape (c : Char) (rest : List Char) :
    jsTrimR (c :: rest) = [] ∨ ∃ r, jsTrimR (c :: rest) = c :: r := by
  simp only [jsTrimR]
  cases jsTrimR rest with
  | nil =>
    by_cases h : isWsChar c = true
    · rw [if_pos h]; exact Or.inl rfl
    · rw [if_neg h]; exact Or.inr ⟨[], rfl⟩
  | cons d r => exact Or.inr ⟨d :: r, rfl⟩

lemma collapsedOk_pair (c d : Char) (rest : List Char)
    (h : collapsedOk (c :: d :: rest) = true) :
    (isWsChar c = false ∨ (c = ' ' ∧ isWsChar d = false)) := by
  simp [collapsedOk] at h
  rcases h.1 with h1 | h1
  · exact Or.inl h1
  · exact Or.inr h1

lemma collapsedOk_single (c : Char) (h : collapsedOk [c] = true) :
    isWsChar c = false ∨ c = ' ' := by
  simp [collapsedOk] at h; exact h

lemma collapsedOk_jsTrimR :
    ∀ l : List Char, collapsedOk l = true → collapsedOk (jsTrimR l) = true
  | [], h => h
  | c :: rest, h => by
    have hrec := collapsedOk_jsTrimR rest (collapsedOk_tail c rest h)
    simp only [jsTrimR]
    cases htr : jsTrimR rest with
    | nil =>
      by_cases hw : isWsChar c = true
      · rw [if_pos hw]; rfl
      · rw [if_neg hw]
        exact collapsedOk_cons_of_notWs c [] (by revert hw; cases isWsChar c <;> simp) rfl
    | cons d r =>
      rw [htr] at hrec
      cases rest with
      | nil => simp [jsTrimR] at htr
      | cons e rr =>
        have hde : d = e := by
          rcases jsTrimR_shape e rr with h0 | ⟨r2, h2⟩
          · rw [h0] at htr; exact absurd htr (by simp)
          · rw [h2] at htr
            injection htr with hh _
            exact hh.symm
        subst hde
        rcases collapsedOk_pair c d rr h with h1 | h1
        · exact collapsedOk_cons_of_notWs c _ h1 hrec
        · rw [h1.1]
          exact collapsedOk_space_cons _ (Or.inr ⟨d, r, rfl, h1.2⟩) hrec

lemma jsTrimR_append_last (l : List Char) (c : Char) (hc : isWsChar c = false) :
    jsTrimR (l ++ [c]) = l ++ [c] := by
  induction l with
  | nil =>
    simp only [List.nil_append, jsTrimR]
    rw [if_neg (by rw [hc]; exact Bool.false_ne_true)]
  | cons d l ih =>
    rw [List.cons_append]
    simp only [jsTrimR, ih]
    cases h : l ++ [c] with
    | nil => exact absurd h (by simp)
    | cons e r => rfl

lemma jsTrimR_shape2 :
    ∀ l : List Char, jsTrimR l = [] ∨
      ∃ r c, jsTrimR l = r ++ [c] ∧ isWsChar c = false
  | [] => Or.inl rfl
  | c :: rest => by
    rcases jsTrimR_shape2 rest with h0 | ⟨r, d, he, hd⟩
    · simp only [jsTrimR, h0]
      by_cases hw : isWsChar c = true
      · rw [if_pos hw]; exact Or.inl rfl
      · rw [if_neg hw]
        exact Or.inr ⟨[], c, rfl, by revert hw; cases isWsChar c <;> simp⟩
    · simp only [jsTrimR]
      cases htr : jsTrimR rest with
      | nil => rw [htr] at he; exact absurd he.symm (by simp)
      | cons e rr =>
        rw [htr] at he
        refine Or.inr ⟨c :: r, d, ?_, hd⟩
        show c :: e :: rr = (c :: r) ++ [d]
        rw [List.cons_append, ← he]

lemma jsTrimR_idem (l : List Char) : jsTrimR (jsTrimR l) = jsTrimR l := by
  rcases jsTrimR_shape2 l with h0 | ⟨r, c, he, hc⟩
  · rw [h0]; rfl
  · rw [he]; exact jsTrimR_append_last r c hc

lemma jsTrimL_head_shape (l : List Char) :
    jsTrimL l = [] ∨ ∃ d r, jsTrimL l = d :: r ∧ isWsChar d = false := by
  cases h : jsTrimL l with
  | nil => exact Or.inl rfl
  | cons d r =>
    have hd := List.head_dropWhile_not isWsChar (l := l)
    unfold jsTrimL at h
    rw [h] at hd
    exact Or.inr ⟨d, r, rfl, by simpa using hd (by simp)⟩

lemma jsTrimR_head (c : Char) (rest : List Char) :
    jsTrimR (c :: rest) = [] ∨ ∃ r, jsTrimR (c :: rest) = c :: r :=
  jsTrimR_shape c rest

lemma jsTrimL_of_head_not_ws (l : List Char)
    (h : l = [] ∨ ∃ d r, l = d :: r ∧ isWsChar d = false) : jsTrimL l = l := by
  rcases h with rfl | ⟨d, r, rfl, hd⟩
  · rfl
  · unfold jsTrimL
    rw [List.dropWhile_cons, if_neg (by rw [hd]; exact Bool.false_ne_true)]

lemma jsTrim_idem (l : List Char) : jsTrim (jsTrim l) = jsTrim l := by
  unfold jsTrim
  have h1 : jsTrimL (jsTrimR (jsTrimL l)) = jsTrimR (jsTrimL l) := by
    apply jsTrimL_of_head_not_ws
    rcases jsTrimL_head_shape l with h0 | ⟨d, r, he, hd⟩
    · rw [h0]; exact Or.inl rfl
    · rw [he]
      rcases jsTrimR_head d r with h2 | ⟨r2, h2⟩
      · rw [h2]; exact Or.inl rfl
      · rw [h2]; exact Or.inr ⟨d, r2, rfl, hd⟩
  rw [h1, jsTrimR_idem]

lemma jsTrimR_sublist : ∀ l : List Char, (jsTrimR l).Sublist l
  | [] => List.Sublist.refl []
  | c :: rest => by
    simp only [jsTrimR]
    cases htr : jsTrimR rest with
    | nil =>
      by_cases hw : isWsChar c = true
      · rw [if_pos hw]; exact List.nil_sublist _
      · rw [if_neg hw]
        exact (List.singleton_sublist.mpr (List.mem_cons_self c rest))
    | cons d r =>
      have := jsTrimR_sublist rest
      rw [htr] at this
      exact List.Sublist.cons₂ c this

lemma mem_jsTrim (c : Char) (l : List Char) (h : c ∈ jsTrim l) : c ∈ l := by
  unfold jsTrim at h
  have h1 : c ∈ jsTrimL l := (jsTrimR_sublist (jsTrimL l)).mem h
  exact (List.dropWhile_sublist isWsChar).mem h1

lemma jsTrimR_noWs_id (l : List Char) (h : ∀ c ∈ l, isWsChar c = false) :
    jsTrimR l = l := by
  induction l with
  | nil => rfl
  | cons c rest ih =>
    simp only [jsTrimR]
    rw [ih (fun d hd => h d (List.mem_cons_of_mem c hd))]
    cases rest with
    | nil =>
      rw [if_neg (by rw [h c (List.mem_cons_self c [])]; exact Bool.false_ne_true)]
    | cons d r => rfl

lemma jsTrim_noWs_id (l : List Char) (h : ∀ c ∈ l, isWsChar c = false) :
    jsTrim l = l := by
  unfold jsTrim
  have h1 : jsTrimL l = l := by
    apply jsTrimL_of_head_not_ws
    cases l with
    | nil => exact Or.inl rfl
    | cons c rest => exact Or.inr ⟨c, rest, rfl, h c (List.mem_cons_self c rest)⟩
  rw [h1, jsTrimR_noWs_id l h]

lemma replaceCRLF_noLF_id : ∀ l : List Char, '\n' ∉ l → replaceCRLF l = l
  | [], _ => rfl
  | [c], h => by
    have hc : c ≠ '\n' := fun he => h (he ▸ List.mem_cons_self c [])
    simp only [replaceCRLF]
    rw [if_neg hc]
  | c :: d :: rest, h => by
    have hc : c ≠ '\n' := fun he => h (he ▸ List.mem_cons_self c (d :: rest))
    have hd : d ≠ '\n' := fun he => h (List.mem_cons_of_mem c (he ▸ List.mem_cons_self d rest))
    have htail : '\n' ∉ d :: rest := fun hm => h (List.mem_cons_of_mem c hm)
    simp only [replaceCRLF]
    rw [if_neg (by rw [Bool.and_eq_true]; rintro ⟨-, h2⟩; exact hd (by simpa using h2)),
      if_neg hc, replaceCRLF_noLF_id (d :: rest) htail]

lemma stripTagsAux_noLt_id :
    ∀ f l, '<' ∉ l → stripTagsAux f l = l
  | 0, _, _ => rfl
  | _ + 1, [], _ => rfl
  | f + 1, c :: rest, h => by
    have hc : c ≠ '<' := fun he => h (he ▸ List.mem_cons_self c rest)
    have hrest : '<' ∉ rest := fun hm => h (List.mem_cons_of_mem c hm)
    simp only [stripTagsAux]
    rw [if_neg hc, stripTagsAux_noLt_id f rest hrest]

lemma stripTags_noLt_id (l : List Char) (h : '<' ∉ l) : stripTags l = l :=
  stripTagsAux_noLt_id l.length l h

lemma removeBlockAux_noLt_id (tag close : List Char) :
    ∀ f l, '<' ∉ l → removeBlockAux tag close f l = l
  | 0, _, _ => rfl
  | _ + 1, [], _ => rfl
  | f + 1, c :: rest, h => by
    have hc : c ≠ '<' := fun he => h (he ▸ List.mem_cons_self c rest)
    have hrest : '<' ∉ rest := fun hm => h (List.mem_cons_of_mem c hm)
    simp only [removeBlockAux]
    rw [if_neg (by rw [Bool.and_eq_true]; rintro ⟨h1, -⟩; exact hc (by simpa using h1))]
    rw [removeBlockAux_noLt_id tag close f rest hrest]

lemma removeBlock_noLt_id (tag close l : List Char) (h : '<' ∉ l) :
    removeBlock tag close l = l :=
  removeBlockAux_noLt_id tag close l.length l h

lemma commonDecode_id (l : List Char) (hlt : '<' ∉ l) (hamp : '&' ∉ l) :
    commonDecode l = l := by
  unfold commonDecode
  rw [removeBlock_noLt_id _ _ l hlt, removeBlock_noLt_id _ _ l hlt,
    stripTags_noLt_id l hlt,
    replaceStr_head_notMem_id '&' _ _ l hamp,
    replaceStr_head_notMem_id '&' _ _ l hamp,
    replaceStr_head_notMem_id '&' _ _ l hamp,
    replaceStr_head_notMem_id '&' _ _ l hamp,
    replaceStr_head_notMem_id '&' _ _ l hamp,
    replaceStr_head_notMem_id '&' _ _ l hamp,
    replaceStr_head_notMem_id '&' _ _ l hamp]

lemma hexDecode_notContains_id (l : List Char)
    (h27 : containsSub "&#x27;".data l = false)
    (h2F : containsSub "&#x2F;".data l = false)
    (h60 : containsSub "&#x60;".data l = false)
    (h3D : containsSub "&#x3D;".data l = false) :
    hexDecode l = l := by
  unfold hexDecode
  rw [replaceStr_notContains_id _ _ l h27, replaceStr_notContains_id _ _ l h2F,
    replaceStr_notContains_id _ _ l h60, replaceStr_notContains_id _ _ l h3D]

lemma hexDecode_noAmp_id (l : List Char) (hamp : '&' ∉ l) : hexDecode l = l := by
  unfold hexDecode
  rw [replaceStr_head_notMem_id '&' _ _ l hamp, replaceStr_head_notMem_id '&' _ _ l hamp,
    replaceStr_head_notMem_id '&' _ _ l hamp, replaceStr_head_notMem_id '&' _ _ l hamp]

lemma collapseWs_ws_space (l : List Char) (c : Char) (hmem : c ∈ collapseWs l)
    (hw : isWsChar c = true) : c = ' ' :=
  collapsedOk_ws_space (collapseWs l) (collapsedOk_collapseWs l) c hmem hw

lemma noLF_collapseWs (l : List Char) : '\n' ∉ collapseWs l := by
  intro hm
  have := collapseWs_ws_space l '\n' hm (by simp [isWsChar])
  exact absurd this (by decide)

/-- The collapsed-then-trimmed shape is a fixed point of collapsing and
of trimming. -/
lemma collapse_of_trim_collapse (z : List Char) :
    collapseWs (jsTrim (collapseWs z)) = jsTrim (collapseWs z) := by
  apply collapsedOk_collapseWs_id
  unfold jsTrim jsTrimL
  exact collapsedOk_jsTrimR _ (collapsedOk_dropWhile _ (collapsedOk_collapseWs z))

lemma trim_of_trim_collapse (z : List Char) :
    jsTrim (jsTrim (collapseWs z)) = jsTrim (collapseWs z) :=
  jsTrim_idem (collapseWs z)

lemma noLF_trim_collapse (z : List Char) : '\n' ∉ jsTrim (collapseWs z) := by
  intro hm
  exact noLF_collapseWs z (mem_jsTrim _ _ hm)

lemma htmlToTextU_eq_trim_collapse (l : List Char) (h : l.isEmpty = false) :
    htmlToTextU l = jsTrim (collapseWs (hexDecode (commonDecode l))) := by
  unfold htmlToTextU
  rw [if_neg (by rw [h]; exact Bool.false_ne_true)]
  rw [replaceCRLF_noLF_id _ (noLF_collapseWs _)]

lemma htmlToTextE_eq_trim_collapse (l : List Char) (h : l.isEmpty = false) :
    htmlToTextE l = jsTrim (collapseWs (commonDecode l)) := by
  unfold htmlToTextE
  rw [if_neg (by rw [h]; exact Bool.false_ne_true)]

/-- C10 counterexample: the two implementations disagree on the hex
apostrophe entity, which only the unipile variant decodes. -/
theorem c10_counterexample :
    htmlToTextEStr "&#x27;" ≠ htmlToTextUStr "&#x27;" := by decide

/-- C10 (amended): the two htmlToText implementations agree on every
input whose shared decoding stage produces no occurrence of the four hex
entities; they differ exactly on those entities, which only
unipile-email-service.js decodes. -/
theorem c10_agreement (s : String)
    (h27 : containsSub "&#x27;".data (commonDecode s.data) = false)
    (h2F : containsSub "&#x2F;".data (commonDecode s.data) = false)
    (h60 : containsSub "&#x60;".data (commonDecode s.data) = false)
    (h3D : containsSub "&#x3D;".data (commonDecode s.data) = false) :
    htmlToTextEStr s = htmlToTextUStr s := by
  unfold htmlToTextEStr htmlToTextUStr
  cases he : s.data.isEmpty with
  | true =>
    unfold htmlToTextE htmlToTextU
    rw [if_pos he, if_pos he]
  | false =>
    rw [htmlToTextE_eq_trim_collapse _ he, htmlToTextU_eq_trim_collapse _ he,
      hexDecode_notContains_id _ h27 h2F h60 h3D]

theorem c10_agreement_witness :
    containsSub "&#x27;".data (commonDecode "a &amp; b".data) = false ∧
    containsSub "&#x2F;".data (commonDecode "a &amp; b".data) = false ∧
    containsSub "&#x60;".data (commonDecode "a &amp; b".data) = false ∧
    containsSub "&#x3D;".data (commonDecode "a &amp; b".data) = false ∧
    htmlToTextEStr "a &amp; b" = htmlToTextUStr "a &amp; b" :=
  ⟨by decide, by decide, by decide, by decide,
    c10_agreement "a &amp; b" (by decide) (by decide) (by decide) (by decide)⟩

/-- C3 counterexample: htmlToText is not idempotent; decoding the
already-decoded output of an entity-encoded tag strips a freshly formed
tag on the second pass. -/
theorem c3_counterexample :
    htmlToTextEStr (htmlToTextEStr "&lt;b&gt;") ≠ htmlToTextEStr "&lt;b&gt;" := by
  decide

/-- C3 (amended): htmlToText is not idempotent in general (a first pass
can create new tags or entities from encoded text, which a second pass
then decodes again).  It is idempotent on every input whose output
contains neither a lt sign nor an ampersand, for both implementations. -/
theorem c3_conditional_idempotent (s : String) :
    (('<' ∉ htmlToTextE s.data ∧ '&' ∉ htmlToTextE s.data) →
      htmlToTextE (htmlToTextE s.data) = htmlToTextE s.data) ∧
    (('<' ∉ htmlToTextU s.data ∧ '&' ∉ htmlToTextU s.data) →
      htmlToTextU (htmlToTextU s.data) = htmlToTextU s.data) := by
  constructor
  · rintro ⟨hlt, hamp⟩
    cases he : s.data.isEmpty with
    | true =>
      unfold htmlToTextE
      rw [if_pos he]
      rfl
    | false =>
      rw [htmlToTextE_eq_trim_collapse _ he] at hlt hamp ⊢
      cases ht : (jsTrim (collapseWs (commonDecode s.data))).isEmpty with
      | true =>
        unfold htmlToTextE
        rw [if_pos ht]
        exact (List.isEmpty_iff.mp ht).symm
      | false =>
        rw [htmlToTextE_eq_trim_collapse _ ht,
          commonDecode_id _ hlt hamp,
          collapse_of_trim_collapse, trim_of_trim_collapse]
  · rintro ⟨hlt, hamp⟩
    cases he : s.data.isEmpty with
    | true =>
      unfold htmlToTextU
      rw [if_pos he]
      rfl
    | false =>
      rw [htmlToTextU_eq_trim_collapse _ he] at hlt hamp ⊢
      cases ht : (jsTrim (collapseWs (hexDecode (commonDecode s.data)))).isEmpty with
      | true =>
        unfold htmlToTextU
        rw [if_pos ht]
        exact (List.isEmpty_iff.mp ht).symm
      | false =>
        rw [htmlToTextU_eq_trim_collapse _ ht,
          commonDecode_id _ hlt hamp,
          hexDecode_noAmp_id _ hamp,
          collapse_of_trim_collapse, trim_of_trim_collapse]

theorem c3_conditional_idempotent_witness :
    ('<' ∉ htmlToTextE "abc def".data ∧ '&' ∉ htmlToTextE "abc def".data) ∧
    ('<' ∉ htmlToTextU "abc def".data ∧ '&' ∉ htmlToTextU "abc def".data) ∧
    htmlToTextE (htmlToTextE "abc def".data) = htmlToTextE "abc def".data ∧
    htmlToTextU (htmlToTextU "abc def".data) = htmlToTextU "abc def".data :=
  ⟨⟨by decide, by decide⟩, ⟨by decide, by decide⟩,
    (c3_conditional_idempotent "abc def").1 ⟨by decide, by decide⟩,
    (c3_conditional_idempotent "abc def").2 ⟨by decide, by decide⟩⟩

lemma step_nbsp (b : List Char) (hb : '&' ∉ b) :
    replaceStr "&nbsp;".data " ".data ("&amp;lt;".data ++ b) = "&amp;lt;".data ++ b := by
  have h : replaceStr "&nbsp;".data " ".data ("&amp;lt;".data ++ b) =
      '&' :: 'a' :: 'm' :: 'p' :: ';' :: 'l' :: 't' :: ';' ::
        replaceStrAux "&nbsp;".data " ".data b.length b := rfl
  rw [h, replaceStrAux_notContains_id _ _ _ b
    (containsSub_false_of_head_notMem '&' _ b hb)]
  rfl

lemma step_amp (b : List Char) (hb : '&' ∉ b) :
    replaceStr "&amp;".data "&".data ("&amp;lt;".data ++ b) = "&lt;".data ++ b := by
  have h : replaceStr "&amp;".data "&".data ("&amp;lt;".data ++ b) =
      '&' :: 'l' :: 't' :: ';' :: replaceStrAux "&amp;".data "&".data (b.length + 4) b := rfl
  rw [h, replaceStrAux_notContains_id _ _ _ b
    (containsSub_false_of_head_notMem '&' _ b hb)]
  rfl

lemma step_lt (b : List Char) (hb : '&' ∉ b) :
    replaceStr "&lt;".data "<".data ("&lt;".data ++ b) = '<' :: b := by
  have h : replaceStr "&lt;".data "<".data ("&lt;".data ++ b) =
      '<' :: replaceStrAux "&lt;".data "<".data (b.length + 3) b := rfl
  rw [h, replaceStrAux_notContains_id _ _ _ b
    (containsSub_false_of_head_notMem '&' _ b hb)]

/-- C2 counterexample: the generic ampersand entity is decoded BEFORE
the angle-bracket entities (source order nbsp, amp, lt, gt, ...), so
amp-encoded lt double-unescapes to a real lt sign instead of the
literal text of the lt entity. -/
theorem c2_counterexample :
    htmlToTextEStr "&amp;lt;" = "<" ∧ htmlToTextEStr "&amp;lt;" ≠ "&lt;" := by
  constructor
  · decide
  · decide

/-- C2 (amended): htmlToText decodes the generic ampersand entity before
the angle-bracket entities, so double-unescaping DOES occur: in any
context of characters that are not whitespace, ampersands or lt signs,
an occurrence of amp-encoded lt decodes to a real lt sign, in both
implementations. -/
theorem c2_amp_decoded_first (a b : List Char)
    (ha : ∀ c ∈ a, isWsChar c = false ∧ c ≠ '&' ∧ c ≠ '<')
    (hb : ∀ c ∈ b, isWsChar c = false ∧ c ≠ '&' ∧ c ≠ '<') :
    htmlToTextE (a ++ ("&amp;lt;".data ++ b)) = a ++ '<' :: b ∧
    htmlToTextU (a ++ ("&amp;lt;".data ++ b)) = a ++ '<' :: b := by
  have hbamp : '&' ∉ b := fun hm => (hb '&' hm).2.1 rfl
  have haamp : ∀ c ∈ a, c ≠ '&' := fun c hc => (ha c hc).2.1
  have hlt_all : '<' ∉ a ++ ("&amp;lt;".data ++ b) := by
    intro hm
    rcases List.mem_append.mp hm with h1 | h1
    · exact (ha '<' h1).2.2 rfl
    · rcases List.mem_append.mp h1 with h2 | h2
      · revert h2; decide
      · exact (hb '<' h2).2.2 rfl
  have hamp_res : '&' ∉ a ++ '<' :: b := by
    intro hm
    rcases List.mem_append.mp hm with h1 | h1
    · exact (ha '&' h1).2.1 rfl
    · rcases List.mem_cons.mp h1 with h2 | h2
      · exact absurd h2 (by decide)
      · exact (hb '&' h2).2.1 rfl
  have hws_res : ∀ c ∈ a ++ '<' :: b, isWsChar c = false := by
    intro c hm
    rcases List.mem_append.mp hm with h1 | h1
    · exact (ha c h1).1
    · rcases List.mem_cons.mp h1 with rfl | h2
      · decide
      · exact (hb c h2).1
  have hcommon : commonDecode (a ++ ("&amp;lt;".data ++ b)) = a ++ '<' :: b := by
    unfold commonDecode
    rw [removeBlock_noLt_id _ _ _ hlt_all, removeBlock_noLt_id _ _ _ hlt_all,
      stripTags_noLt_id _ hlt_all]
    rw [show "&nbsp;".data = '&' :: "nbsp;".data from rfl,
      replaceStr_append_headFree '&' "nbsp;".data _ a _ haamp,
      show ('&' :: "nbsp;".data) = "&nbsp;".data from rfl, step_nbsp b hbamp]
    rw [show "&amp;".data = '&' :: "amp;".data from rfl,
      replaceStr_append_headFree '&' "amp;".data _ a _ haamp,
      show ('&' :: "amp;".data) = "&amp;".data from rfl, step_amp b hbamp]
    rw [show "&lt;".data = '&' :: "lt;".data from rfl,
      replaceStr_append_headFree '&' "lt;".data _ a _ haamp,
      show ('&' :: "lt;".data) = "&lt;".data from rfl, step_lt b hbamp]
    rw [show "&gt;".data = '&' :: "gt;".data from rfl,
      replaceStr_head_notMem_id '&' "gt;".data _ _ hamp_res]
    rw [show "&quot;".data = '&' :: "quot;".data from rfl,
      replaceStr_head_notMem_id '&' "quot;".data _ _ hamp_res]
    rw [show "&#39;".data = '&' :: "#39;".data from rfl,
      replaceStr_head_notMem_id '&' "#39;".data _ _ hamp_res]
    rw [show "&apos;".data = '&' :: "apos;".data from rfl,
      replaceStr_head_notMem_id '&' "apos;".data _ _ hamp_res]
  have hne : (a ++ ("&amp;lt;".data ++ b)).isEmpty = false := by
    cases a with
    | nil => rfl
    | cons c r => rfl
  constructor
  · rw [htmlToTextE_eq_trim_collapse _ hne, hcommon,
      collapseWs_noWs_id _ hws_res, jsTrim_noWs_id _ hws_res]
  · rw [htmlToTextU_eq_trim_collapse _ hne, hcommon,
      hexDecode_noAmp_id _ hamp_res,
      collapseWs_noWs_id _ hws_res, jsTrim_noWs_id _ hws_res]

theorem c2_amp_decoded_first_witness :
    (∀ c ∈ "x".data, isWsChar c = false ∧ c ≠ '&' ∧ c ≠ '<') ∧
    (∀ c ∈ "y".data, isWsChar c = false ∧ c ≠ '&' ∧ c ≠ '<') ∧
    htmlToTextE ("x".data ++ ("&amp;lt;".data ++ "y".data)) = "x".data ++ '<' :: "y".data ∧
    htmlToTextU ("x".data ++ ("&amp;lt;".data ++ "y".data)) = "x".data ++ '<' :: "y".data :=
  ⟨by decide, by decide,
    (c2_amp_decoded_first "x".data "y".data (by decide) (by decide)).1,
    (c2_amp_decoded_first "x".data "y".data (by decide) (by decide)).2⟩

/-- C4 counterexample: the email-utils.js implementation returns the
input string itself in the email field for a non-bracketed non-address
string, never the Unknown sentinel. -/
theorem c4_counterexample :
    (extractSenderE (JSVal.str "John Doe")).email = JSVal.str "John Doe" ∧
    (extractSenderE (JSVal.str "John Doe")).email ≠ JSVal.str "Unknown" := by
  constructor
  · rfl
  · intro h
    injection h with h2
    exact absurd h2 (by decide)

/-- C4 (amended): the unstructured-string fallback holds for the
unipile-email-service.js implementation, with the name being the
TRIMMED input: a nonempty string that matches neither the bracketed
pattern nor the bare-address pattern yields the Unknown sentinel with
the trimmed string as display name.  The email-utils.js implementation
instead returns the trimmed input in the email field. -/
theorem c4_unstructured_fallback (s : String) (h1 : s ≠ "")
    (h2 : bracketSearch s.data = none)
    (h3 : emailRegexTest (jsTrim s.data) = false) :
    extractSenderU (JSVal.str s) =
      ⟨JSVal.str "Unknown", JSVal.str (String.mk (jsTrim s.data))⟩ := by
  unfold extractSenderU
  have ht : jsTruthy (JSVal.str s) = true := by simp [jsTruthy, h1]
  rw [ht]
  simp only [Bool.not_true]
  rw [if_neg (by exact Bool.false_ne_true)]
  simp only [h2]
  rw [if_neg (by rw [h3]; exact Bool.false_ne_true)]

theorem c4_unstructured_fallback_witness :
    "John Doe" ≠ "" ∧
    bracketSearch "John Doe".data = none ∧
    emailRegexTest (jsTrim "John Doe".data) = false ∧
    extractSenderU (JSVal.str "John Doe") =
      ⟨JSVal.str "Unknown", JSVal.str (String.mk (jsTrim "John Doe".data))⟩ :=
  ⟨by decide, by decide, by decide,
    c4_unstructured_fallback "John Doe" (by decide) (by decide) (by decide)⟩

/-- C5 counterexample: with both sources empty the no-content sentinel
(20 characters) is returned, violating the claimed bound for small
maximum lengths. -/
theorem c5_counterexample :
    ¬ ((generatePreviewJS (JSVal.str "") (JSVal.str "") 0).length ≤ 0 + 3) := by
  decide

/-- C5 (amended): the bound holds whenever the selected-and-cleaned
content is nonempty; in that case the output length is at most
maxLength + 3, with equality exactly when the cleaned content strictly
exceeds maxLength.  When no content is selected, or the cleaned content
is empty, a fixed sentinel of length 20 or 13 is returned regardless of
maxLength. -/
theorem c5_preview_bound (body plainBody : String) (maxLength : Nat)
    (h : cleanPreview (selContent (JSVal.str body) (JSVal.str plainBody)) ≠ []) :
    (generatePreviewJS (JSVal.str body) (JSVal.str plainBody) maxLength).length ≤ maxLength + 3 ∧
    ((generatePreviewJS (JSVal.str body) (JSVal.str plainBody) maxLength).length = maxLength + 3 ↔
      maxLength < (cleanPreview (selContent (JSVal.str body) (JSVal.str plainBody))).length) := by
  simp only [generatePreviewJS]
  have hcontent : (selContent (JSVal.str body) (JSVal.str plainBody)).isEmpty = false := by
    cases hx : selContent (JSVal.str body) (JSVal.str plainBody) with
    | nil => exact absurd (by rw [hx]; rfl) h
    | cons c r => rfl
  rw [if_neg (by rw [hcontent]; exact Bool.false_ne_true)]
  have hclean : (cleanPreview (selContent (JSVal.str body) (JSVal.str plainBody))).isEmpty = false := by
    cases hx : cleanPreview (selContent (JSVal.str body) (JSVal.str plainBody)) with
    | nil => exact absurd hx h
    | cons c r => rfl
  by_cases hlen : maxLength < (cleanPreview (selContent (JSVal.str body) (JSVal.str plainBody))).length
  · rw [if_pos hlen]
    have htake :
        ((cleanPreview (selContent (JSVal.str body) (JSVal.str plainBody))).take maxLength).length
          = maxLength := by
      rw [List.length_take]; omega
    have hdots : ("...".data).length = 3 := by decide
    rw [List.length_append, htake, hdots]
    exact ⟨Nat.le_refl _, ⟨fun _ => hlen, fun _ => rfl⟩⟩
  · rw [if_neg hlen, if_neg (by rw [hclean]; exact Bool.false_ne_true)]
    constructor
    · omega
    · constructor
      · intro he; omega
      · intro hcon; exact absurd hcon hlen

theorem c5_preview_bound_witness :
    cleanPreview (selContent (JSVal.str "") (JSVal.str "this is a longer text")) ≠ [] ∧
    ((generatePreviewJS (JSVal.str "") (JSVal.str "this is a longer text") 5).length ≤ 5 + 3 ∧
      ((generatePreviewJS (JSVal.str "") (JSVal.str "this is a longer text") 5).length = 5 + 3 ↔
        5 < (cleanPreview (selContent (JSVal.str "") (JSVal.str "this is a longer text"))).length)) :=
  ⟨by decide, c5_preview_bound "" "this is a longer text" 5 (by decide)⟩

/-- C9 (confirmed): the security rule is evaluated first, so any subject
containing the verify keyword (in particular one also containing the
deal keyword) classifies as security, never marketing; the concrete
spec example also holds. -/
theorem c9_priority_order :
    (∀ subject sender body : String,
      containsSub "verify".data (lowerL subject.data) = true →
      containsSub "deal".data (lowerL subject.data) = true →
      categorizeEmail subject sender body = "security") ∧
    categorizeEmail "Your verification code" "deals@shop.com" "" = "security" := by
  constructor
  · intro subject sender body hv _
    simp only [categorizeEmail]
    rw [if_pos (by rw [hv]; simp)]
  · decide

theorem c9_priority_order_witness :
    containsSub "verify".data (lowerL "please verify this deal".data) = true ∧
    containsSub "deal".data (lowerL "please verify this deal".data) = true ∧
    categorizeEmail "please verify this deal" "someone@shop.com" "hi" = "security" :=
  ⟨by decide, by decide,
    c9_priority_order.1 "please verify this deal" "someone@shop.com" "hi" (by decide) (by decide)⟩

lemma splitOnSp_ne_nil : ∀ l : List Char, splitOnSp l ≠ []
  | [] => by simp [splitOnSp]
  | c :: rest => by
    simp only [splitOnSp]
    by_cases h : c = ' '
    · rw [if_pos h]; simp
    · rw [if_neg h]
      cases hsp : splitOnSp rest with
      | nil => simp
      | cons g gs => simp

lemma countTokens_split :
    ∀ l : List Char,
      countTokensAux (fun c => c = ' ') false l =
        ((splitOnSp l).filter (fun w => 0 < w.length)).length ∧
      countTokensAux (fun c => c = ' ') true l =
        (((splitOnSp l).tail).filter (fun w => 0 < w.length)).length
  | [] => ⟨rfl, rfl⟩
  | c :: rest => by
    obtain ⟨ih1, ih2⟩ := countTokens_split rest
    by_cases h : c = ' '
    · subst h
      constructor
      · simpa [countTokensAux, splitOnSp] using ih1
      · simpa [countTokensAux, splitOnSp] using ih1
    · cases hsp : splitOnSp rest with
      | nil => exact absurd hsp (splitOnSp_ne_nil rest)
      | cons g gs =>
        rw [hsp] at ih2
        constructor
        · simp only [countTokensAux, splitOnSp, if_neg h, hsp]
          simp [h, ih2, Nat.add_comm]
        · simp only [countTokensAux, splitOnSp, if_neg h, hsp]
          simp [h, ih2]

lemma wordCount_eq_countTokens (ptd : List Char) :
    ((splitOnSp ptd).filter (fun w => 0 < w.length)).length =
      countTokensBy (fun c => c = ' ') ptd :=
  ((countTokens_split ptd).1).symm

/-- C6 counterexample: a plain body with a tab has one space-delimited
token but two whitespace-delimited tokens; the code counts one. -/
theorem c6_counterexample :
    (processEmailJS [("body_plain", JSVal.str "a\tb")]).map (fun r => r.wordCount) =
      Except.ok 1 ∧
    countTokensBy isWsChar "a\tb".data = 2 ∧ (1 : Nat) ≠ 2 :=
  ⟨rfl, by decide, by decide⟩

/-- C6 (amended): wordCount counts the nonempty SPACE-delimited tokens
of plainTextBody (the split is on the space character only, so tabs and
newlines do not separate tokens), and estimatedReadTime is
max(1, ceil(wordCount / 200)). -/
theorem c6_word_count (fields : List (String × JSVal)) :
    (processEmailJS fields).map (fun r => (r.wordCount, r.estimatedReadTime)) =
    (processEmailJS fields).map (fun r =>
      (countTokensBy (fun c => c = ' ') (jsStrData r.plainTextBody),
       max 1 ((countTokensBy (fun c => c = ' ') (jsStrData r.plainTextBody) + 199) / 200))) := by
  simp only [processEmailJS]
  generalize jsOr (jget fields "body_plain")
      (JSVal.str (String.mk (htmlToTextJS (jsOr (jget fields "body") (JSVal.str ""))))) = v
  cases v with
  | str pt => simp [Except.map, jsStrData, wordCount_eq_countTokens]
  | undef => rfl
  | null => rfl
  | bool b => rfl
  | num n => rfl
  | arr xs => rfl
  | obj fs => rfl

lemma jsTruthy_iff (v : JSVal) :
    jsTruthy v = true ↔
      (v ≠ JSVal.undef ∧ v ≠ JSVal.null ∧ v ≠ JSVal.str "" ∧
       v ≠ JSVal.num 0 ∧ v ≠ JSVal.bool false) := by
  cases v with
  | undef => simp [jsTruthy]
  | null => simp [jsTruthy]
  | bool b => cases b <;> simp [jsTruthy]
  | num n => simp [jsTruthy]
  | str s => simp [jsTruthy]
  | arr xs => simp [jsTruthy]
  | obj fs => simp [jsTruthy]

/-- C7 counterexample: a present, non-null read marker that is the empty
string yields isRead = false, contradicting the claim that any present
non-null value marks the email as read. -/
theorem c7_counterexample :
    (processEmailJS [("read_date", JSVal.str "")]).map (fun r => r.isRead) =
      Except.ok false ∧
    jget [("read_date", JSVal.str "")] "read_date" = JSVal.str "" ∧
    JSVal.str "" ≠ JSVal.undef ∧ JSVal.str "" ≠ JSVal.null :=
  ⟨rfl, rfl, fun h => JSVal.noConfusion h, fun h => JSVal.noConfusion h⟩

/-- C7 (amended): isRead is true exactly when the read marker field is
TRUTHY: present, non-null, and none of the falsy values empty string,
zero, or false. -/
theorem c7_read_marker (fields : List (String × JSVal)) (r : Processed)
    (h : processEmailJS fields = Except.ok r) :
    r.isRead = true ↔
      (jget fields "read_date" ≠ JSVal.undef ∧ jget fields "read_date" ≠ JSVal.null ∧
       jget fields "read_date" ≠ JSVal.str "" ∧ jget fields "read_date" ≠ JSVal.num 0 ∧
       jget fields "read_date" ≠ JSVal.bool false) := by
  simp only [processEmailJS] at h
  revert h
  generalize jsOr (jget fields "body_plain")
      (JSVal.str (String.mk (htmlToTextJS (jsOr (jget fields "body") (JSVal.str ""))))) = v
  intro h
  cases v with
  | str pt =>
    simp only [Except.ok.injEq] at h
    rw [← h]
    exact jsTruthy_iff (jget fields "read_date")
  | undef => exact absurd h (by simp)
  | null => exact absurd h (by simp)
  | bool b => exact absurd h (by simp)
  | num n => exact absurd h (by simp)
  | arr xs => exact absurd h (by simp)
  | obj fs => exact absurd h (by simp)

theorem c7_read_marker_witness :
    processEmailJS [("read_date", JSVal.num 3)] =
      Except.ok (procOr (processEmailJS [("read_date", JSVal.num 3)]) dummyProcessed) ∧
    ((procOr (processEmailJS [("read_date", JSVal.num 3)]) dummyProcessed).isRead = true ↔
      (jget [("read_date", JSVal.num 3)] "read_date" ≠ JSVal.undef ∧
       jget [("read_date", JSVal.num 3)] "read_date" ≠ JSVal.null ∧
       jget [("read_date", JSVal.num 3)] "read_date" ≠ JSVal.str "" ∧
       jget [("read_date", JSVal.num 3)] "read_date" ≠ JSVal.num 0 ∧
       jget [("read_date", JSVal.num 3)] "read_date" ≠ JSVal.bool false)) :=
  ⟨rfl, c7_read_marker [("read_date", JSVal.num 3)] _ rfl⟩

lemma dedupFirstAux_length_le :
    ∀ (seen : List (List Char)) (l : List (List Char)),
      (dedupFirstAux seen l).length ≤ l.length
  | _, [] => Nat.le_refl 0
  | seen, x :: xs => by
    simp only [dedupFirstAux]
    by_cases h : x ∈ seen
    · rw [if_pos h]
      exact Nat.le_succ_of_le (dedupFirstAux_length_le seen xs)
    · rw [if_neg h]
      simpa using dedupFirstAux_length_le (x :: seen) xs

lemma dedupFirstAux_notMem_seen :
    ∀ (seen : List (List Char)) (l : List (List Char)) (x : List Char),
      x ∈ dedupFirstAux seen l → x ∉ seen
  | seen, [], x, hm => absurd hm (List.not_mem_nil x)
  | seen, y :: ys, x, hm => by
    simp only [dedupFirstAux] at hm
    by_cases h : y ∈ seen
    · rw [if_pos h] at hm
      exact dedupFirstAux_notMem_seen seen ys x hm
    · rw [if_neg h] at hm
      rcases List.mem_cons.mp hm with rfl | hm2
      · exact h
      · intro hs
        exact dedupFirstAux_notMem_seen (y :: seen) ys x hm2 (List.mem_cons_of_mem y hs)

lemma dedupFirstAux_nodup :
    ∀ (seen : List (List Char)) (l : List (List Char)), (dedupFirstAux seen l).Nodup
  | _, [] => List.nodup_nil
  | seen, y :: ys => by
    simp only [dedupFirstAux]
    by_cases h : y ∈ seen
    · rw [if_pos h]
      exact dedupFirstAux_nodup seen ys
    · rw [if_neg h]
      refine List.nodup_cons.mpr ⟨?_, dedupFirstAux_nodup (y :: seen) ys⟩
      intro hm
      exact dedupFirstAux_notMem_seen (y :: seen) ys y hm (List.mem_cons_self y seen)

/-- C8 counterexample: for the URL sequence a, a, b, c the code slices
to the first three matches BEFORE deduplicating, returning two links
where the claim predicts three. -/
theorem c8_counterexample :
    (extractKeyInfoJS (JSVal.str "")
        (JSVal.str "http://a.co http://a.co http://b.co http://c.co")).map
        (fun kf => kf.links) =
      Except.ok ["http://a.co".data, "http://b.co".data] ∧
    (dedupFirst (urlScan "http://a.co http://a.co http://b.co http://c.co".data)).take 3 =
      ["http://a.co".data, "http://b.co".data, "http://c.co".data] ∧
    ["http://a.co".data, "http://b.co".data] ≠
      ["http://a.co".data, "http://b.co".data, "http://c.co".data] :=
  ⟨rfl, by decide, by decide⟩

/-- C8 (amended): links consists of the http(s) tokens of body only,
TRUNCATED to the first three matches FIRST and then deduplicated
preserving first-appearance order (so duplicates within the first three
matches shrink the result below three); the result is always
duplicate-free with at most three entries. -/
theorem c8_links (subj : JSVal) (b : String) :
    (extractKeyInfoJS subj (JSVal.str b)).map (fun kf => kf.links) =
      Except.ok (dedupFirst ((urlScan b.data).take 3)) ∧
    (dedupFirst ((urlScan b.data).take 3)).length ≤ 3 ∧
    (dedupFirst ((urlScan b.data).take 3)).Nodup := by
  refine ⟨rfl, ?_, dedupFirstAux_nodup [] _⟩
  calc (dedupFirst ((urlScan b.data).take 3)).length
      ≤ ((urlScan b.data).take 3).length := dedupFirstAux_length_le [] _
    _ ≤ 3 := by rw [List.length_take]; omega

/-- C1 counterexample: processEmail throws a TypeError when body_plain
is truthy but not a string (the word-count split), and extractKeyInfo
throws when body is null (the URL match), so neither function is total
on type-sane input. -/
theorem c1_counterexample :
    isOkE (processEmailJS [("body_plain", JSVal.num 5)]) = false ∧
    isOkE (extractKeyInfoJS (JSVal.str "subject") JSVal.null) = false :=
  ⟨rfl, rfl⟩

/-- C1 (amended): processEmail returns a normalized record for every
object-shaped raw record whose body_plain field, when truthy, is a
string; extractKeyInfo returns a result for every subject whenever body
is a string.  Outside these conditions the word-count split or the URL
match throws a TypeError. -/
theorem c1_totality (fields : List (String × JSVal)) (subj : JSVal) (b : String)
    (h : jsTruthy (jget fields "body_plain") = true →
      ∃ s : String, jget fields "body_plain" = JSVal.str s) :
    isOkE (processEmailJS fields) = true ∧
    isOkE (extractKeyInfoJS subj (JSVal.str b)) = true := by
  constructor
  · simp only [processEmailJS]
    by_cases ht : jsTruthy (jget fields "body_plain") = true
    · obtain ⟨s, hs⟩ := h ht
      have hv : jsOr (jget fields "body_plain")
          (JSVal.str (String.mk (htmlToTextJS (jsOr (jget fields "body") (JSVal.str ""))))) =
          JSVal.str s := by
        unfold jsOr
        rw [if_pos ht, hs]
      simp only [hv]
      rfl
    · have hv : jsOr (jget fields "body_plain")
          (JSVal.str (String.mk (htmlToTextJS (jsOr (jget fields "body") (JSVal.str ""))))) =
          JSVal.str (String.mk (htmlToTextJS (jsOr (jget fields "body") (JSVal.str "")))) := by
        unfold jsOr
        rw [if_neg ht]
      simp only [hv]
      rfl
  · rfl

theorem c1_totality_witness :
    isOkE (processEmailJS [("body_plain", JSVal.str "hello"), ("subject", JSVal.str "Hi")]) = true ∧
    isOkE (extractKeyInfoJS (JSVal.str "Hi") (JSVal.str "there")) = true :=
  c1_totality [("body_plain", JSVal.str "hello"), ("subject", JSVal.str "Hi")]
    (JSVal.str "Hi") "there" (fun _ => ⟨"hello", rfl⟩)
